import Mathlib

set_option maxHeartbeats 1000000

/-!
Verification of the core game logic of the Ants Vs. SomeBees module
(`src/ants/ants.py`), shallowly embedded in Lean.

The embedding models the parts of the code that the verified properties
are about: `Place.add_insect` / `Place.remove_insect`, `Insect.reduce_armor`,
`Water.add_insect`, `Ant.can_contain` / `contain_ant` / `double_damage`,
`ThrowerAnt.nearest_bee`, `QueenAnt._double_place_damage` and the
damage-doubling walk of `QueenAnt.action`, the status-effect wrappers
`make_slow` / `make_stun` / `apply_effect` together with `Bee.action`,
and `AntColony.simulate` / `AntColony.deploy_ant`.
-/

/-- An insect record mirroring the fields of `Insect` / `Ant` / `Bee` that
the verified operations consult: `id` stands for Python object identity,
`isAnt` for the result of `is_ant()`, `isQueen` for the result of
`is_queen()` (true only for the one true `QueenAnt` instance), `watersafe`
for the class flag of the same name, `container` for the `Ant.container`
flag, `armor` for `self.armor`, `damage` for `self.damage`,
`damage_doubled` for the `Ant.damage_doubled` guard flag, and `contained`
for the ant returned by `contained_ant()` (the `BodyguardAnt.ant` field;
`none` for every non-container ant and for bees). -/
inductive Ins where
  | mk (id : Nat) (isAnt : Bool) (isQueen : Bool) (watersafe : Bool)
      (container : Bool) (armor : Int) (damage : Nat) (damage_doubled : Bool)
      (contained : Option Ins)

def Ins.id : Ins → Nat
  | .mk i _ _ _ _ _ _ _ _ => i

def Ins.isAnt : Ins → Bool
  | .mk _ a _ _ _ _ _ _ _ => a

def Ins.isQueen : Ins → Bool
  | .mk _ _ q _ _ _ _ _ _ => q

def Ins.watersafe : Ins → Bool
  | .mk _ _ _ w _ _ _ _ _ => w

def Ins.container : Ins → Bool
  | .mk _ _ _ _ c _ _ _ _ => c

def Ins.armor : Ins → Int
  | .mk _ _ _ _ _ ar _ _ _ => ar

def Ins.damage : Ins → Nat
  | .mk _ _ _ _ _ _ d _ _ => d

def Ins.damage_doubled : Ins → Bool
  | .mk _ _ _ _ _ _ _ dd _ => dd

def Ins.contained : Ins → Option Ins
  | .mk _ _ _ _ _ _ _ _ co => co

/-- Replace the `contained` field (the assignment performed by
`BodyguardAnt.contain_ant`). -/
def Ins.withContained : Ins → Option Ins → Ins
  | .mk i a q w c ar d dd _, co => .mk i a q w c ar d dd co

/-- Replace the `armor` field (the assignment in `Insect.reduce_armor`). -/
def Ins.withArmor : Ins → Int → Ins
  | .mk i a q w c _ d dd co, ar => .mk i a q w c ar d dd co

/-- A `Place`: the `bees` list holds the identities of the bees present,
and `ant` holds the single ant slot (the full record of the resident ant,
including any ant nested inside it). -/
structure PlaceRec where
  bees : List Nat
  ant : Option Ins

/-- The state of one focused insect together with the contents of the
`Place` it refers to.  `hasPlace` records whether `insect.place` is set
(i.e. is not Python `None`). -/
structure Config where
  insect : Ins
  place : PlaceRec
  hasPlace : Bool

/-- `Ant.can_contain`: a container with an empty `contained` slot can
contain any non-container ant. -/
def can_contain (self other : Ins) : Bool :=
  if self.container = false then false
  else if self.contained.isSome then false
  else if other.container then false
  else true

/-- `BodyguardAnt.contain_ant`: store `other` in the `contained` slot. -/
def contain_ant (self other : Ins) : Ins :=
  self.withContained (some other)

/-- `Place.add_insect`: an ant goes into the ant slot (possibly nesting
into, or around, the resident ant); a bee is appended to the bees list.
The failing `assert` in the final branch is modelled as `.error`. -/
def add_insect (p : PlaceRec) (i : Ins) : Except String PlaceRec :=
  if i.isAnt then
    match p.ant with
    | none => .ok { p with ant := some i }
    | some a =>
      if can_contain a i then .ok { p with ant := some (contain_ant a i) }
      else if can_contain i a then .ok { p with ant := some (contain_ant i a) }
      else .error "Two ants in place"
  else .ok { p with bees := p.bees ++ [i.id] }

/-- `Place.remove_insect` applied to the focused insect: a queen is never
removed (early return, place reference kept); a bee is removed from the
bees list (`list.remove`, which raises if the bee is absent); an ant must
be the resident of the ant slot (the `assert`), and the slot is replaced
by whatever ant it contained.  Failures are modelled as `.error`. -/
def remove_insect (c : Config) : Except String Config :=
  if c.insect.isQueen then .ok c
  else if c.insect.isAnt = false then
    if c.insect.id ∈ c.place.bees then
      .ok { insect := c.insect,
            place := { c.place with bees := c.place.bees.erase c.insect.id },
            hasPlace := false }
    else .error "ValueError: not in list"
  else
    match c.place.ant with
    | some a =>
      if a.id = c.insect.id then
        .ok { insect := c.insect,
              place := { c.place with ant := a.contained },
              hasPlace := false }
      else .error "AssertionError: not in place"
    | none => .error "AssertionError: not in place"

/-- `Insect.reduce_armor`: subtract `amount` from the armor; if the result
is `≤ 0`, call `self.place.remove_insect(self)` — which dereferences a
`None` place (`AttributeError`, modelled as `.error`) when the insect has
no place. -/
def reduce_armor (c : Config) (amount : Int) : Except String Config :=
  let c' : Config :=
    { c with insect := c.insect.withArmor (c.insect.armor - amount) }
  if c'.insect.armor ≤ 0 then
    if c.hasPlace then remove_insect c'
    else .error "AttributeError: NoneType has no remove_insect"
  else .ok c'

/-- `Water.add_insect`: delegate to `Place.add_insect`, then, if the
insect is not watersafe, reduce its armor by its full armor amount. -/
def water_add_insect (p : PlaceRec) (i : Ins) : Except String Config :=
  match add_insect p i with
  | .error e => .error e
  | .ok p' =>
    if i.watersafe then .ok { insect := i, place := p', hasPlace := true }
    else reduce_armor { insect := i, place := p', hasPlace := true } i.armor

/-- Whether the focused insect is present in its place: an ant must be the
resident of the ant slot, a bee must be in the bees list. -/
def presentIn (c : Config) : Bool :=
  if c.insect.isAnt then
    match c.place.ant with
    | some a => a.id = c.insect.id
    | none => false
  else c.insect.id ∈ c.place.bees

/-- The occupancy invariant of a `Place`'s ant slot: if the resident ant
nests another ant, the resident is a container, the nested ant is not,
and the nested ant nests nothing further. -/
def slotInv : Option Ins → Bool
  | none => true
  | some a =>
    match a.contained with
    | none => true
    | some inner =>
      a.container && !inner.container && inner.contained.isNone

theorem Ins.withContained_contained (a : Ins) (o : Option Ins) :
    (a.withContained o).contained = o := by cases a <;> rfl

theorem Ins.withContained_container (a : Ins) (o : Option Ins) :
    (a.withContained o).container = a.container := by cases a <;> rfl

theorem Ins.withArmor_armor (a : Ins) (x : Int) :
    (a.withArmor x).armor = x := by cases a <;> rfl

theorem Ins.withArmor_id (a : Ins) (x : Int) :
    (a.withArmor x).id = a.id := by cases a <;> rfl

theorem Ins.withArmor_isAnt (a : Ins) (x : Int) :
    (a.withArmor x).isAnt = a.isAnt := by cases a <;> rfl

theorem Ins.withArmor_isQueen (a : Ins) (x : Int) :
    (a.withArmor x).isQueen = a.isQueen := by cases a <;> rfl

theorem Ins.withArmor_contained (a : Ins) (x : Int) :
    (a.withArmor x).contained = a.contained := by cases a <;> rfl

/-- Unfolding of the guard chain of `Ant.can_contain`. -/
theorem can_contain_iff (a b : Ins) :
    can_contain a b = true ↔
      a.container = true ∧ a.contained = none ∧ b.container = false := by
  unfold can_contain
  split
  · rename_i h
    simp [h]
  · split
    · rename_i h₁ h₂
      simp only [Bool.false_eq_true, false_iff]
      intro ⟨_, hco, _⟩
      rw [hco] at h₂
      simp at h₂
    · split
      · rename_i h₁ h₂ h₃
        simp only [Bool.false_eq_true, false_iff]
        intro ⟨_, _, hb⟩
        rw [hb] at h₃
        simp at h₃
      · rename_i h₁ h₂ h₃
        simp only [true_iff]
        refine ⟨by revert h₁; cases a.container <;> simp, ?_, by revert h₃; cases b.container <;> simp⟩
        revert h₂
        cases a.contained <;> simp

/-- C1: at every place whose ant slot satisfies the nesting invariant
(at most one non-container ant, or one container ant optionally nesting
exactly one non-container ant, never two containers), adding a freshly
constructed ant (`contained = none`) either raises the assertion error of
`Place.add_insect` or yields a slot that satisfies the invariant again —
no other configuration is ever produced. -/
theorem add_insect_nesting_invariant (p : PlaceRec) (i : Ins)
    (hAnt : i.isAnt = true) (hfresh : i.contained = none)
    (hinv : slotInv p.ant = true) :
    (∃ e, add_insect p i = .error e) ∨
    (∃ p', add_insect p i = .ok p' ∧ slotInv p'.ant = true) := by
  cases hp : p.ant with
  | none =>
    right
    refine ⟨{ p with ant := some i }, ?_, ?_⟩
    · simp [add_insect, hAnt, hp]
    · simp [slotInv, hfresh]
  | some a =>
    rw [hp] at hinv
    by_cases h1 : can_contain a i = true
    · right
      refine ⟨{ p with ant := some (contain_ant a i) }, ?_, ?_⟩
      · simp [add_insect, hAnt, hp, h1]
      · obtain ⟨hc, _, hic⟩ := (can_contain_iff a i).1 h1
        simp [slotInv, contain_ant, Ins.withContained_contained,
          Ins.withContained_container, hc, hic, hfresh]
    · by_cases h2 : can_contain i a = true
      · right
        obtain ⟨hc, _, hac⟩ := (can_contain_iff i a).1 h2
        have hacont : a.contained = none := by
          cases hca : a.contained with
          | none => rfl
          | some inner =>
            exfalso
            simp [slotInv, hca] at hinv
            simp [hinv.1] at hac
        refine ⟨{ p with ant := some (contain_ant i a) }, ?_, ?_⟩
        · simp [add_insect, hAnt, hp, h1, h2]
        · simp [slotInv, contain_ant, Ins.withContained_contained,
            Ins.withContained_container, hc, hacont, hac]
      · left
        exact ⟨"Two ants in place", by simp [add_insect, hAnt, hp, h1, h2]⟩

/-- Witness for C1: adding a fresh non-container ant to an empty slot. -/
theorem add_insect_nesting_invariant_witness :
    (∃ e, add_insect ⟨[], none⟩ (Ins.mk 1 true false false false 1 0 false none) =
        .error e) ∨
    (∃ p', add_insect ⟨[], none⟩ (Ins.mk 1 true false false false 1 0 false none) =
        .ok p' ∧ slotInv p'.ant = true) :=
  add_insect_nesting_invariant _ _ rfl rfl rfl

/-- A placed true queen (`QueenAnt` with `is_true_queen`) with armor 1,
occupying the ant slot of her place. -/
def queenCfg : Config :=
  { insect := Ins.mk 0 true true true false 1 1 false none,
    place := { bees := [],
               ant := some (Ins.mk 0 true true true false 1 1 false none) },
    hasPlace := true }

/-- The state after the queen takes 1 (lethal) damage: armor 0, but the
queen is still the resident of her place's ant slot. -/
def queenCfgAfter : Config :=
  { insect := Ins.mk 0 true true true false 0 1 false none,
    place := { bees := [],
               ant := some (Ins.mk 0 true true true false 1 1 false none) },
    hasPlace := true }

/-- C2 counterexample: the claim "reduce_armor always leaves the actor
either present with armor > 0 or absent with armor ≤ 0, with no third
outcome for any actor" is false for the true queen: `Place.remove_insect`
returns early for a queen, so lethal damage leaves her present in her
place with armor ≤ 0 — a third outcome. -/
theorem reduce_armor_queen_third_outcome :
    reduce_armor queenCfg 1 = .ok queenCfgAfter ∧
    presentIn queenCfgAfter = true ∧
    queenCfgAfter.insect.armor ≤ 0 :=
  ⟨rfl, rfl, by decide⟩

/-- C2 (amended): for every NON-queen actor placed in its location
(a bee occurring exactly once in the bees list, or an ant resident in the
ant slot and not nesting itself), `reduce_armor(amount)` on armor `k`
leaves the actor either still present with armor `k - amount > 0`, or
absent from its place with armor `k - amount ≤ 0` — no third outcome. -/
theorem reduce_armor_two_outcomes_nonqueen (c : Config) (amount : Int)
    (hq : c.insect.isQueen = false)
    (hp : c.hasPlace = true)
    (hcase :
      (c.insect.isAnt = false ∧ c.place.bees.count c.insect.id = 1) ∨
      (c.insect.isAnt = true ∧ c.place.ant = some c.insect ∧
        ∀ x, c.insect.contained = some x → x.id ≠ c.insect.id)) :
    ∃ c', reduce_armor c amount = .ok c' ∧
      c'.insect.armor = c.insect.armor - amount ∧
      ((0 < c.insect.armor - amount ∧ presentIn c' = true) ∨
       (c.insect.armor - amount ≤ 0 ∧ presentIn c' = false)) := by
  by_cases hle : c.insect.armor - amount ≤ 0
  · rcases hcase with ⟨hb, hcnt⟩ | ⟨ha, hslot, hinner⟩
    · have hmem : c.insect.id ∈ c.place.bees := List.count_pos_iff.mp (by omega)
      refine ⟨⟨c.insect.withArmor (c.insect.armor - amount),
              { c.place with bees := c.place.bees.erase c.insect.id },
              false⟩, ?_, Ins.withArmor_armor _ _, ?_⟩
      · simp only [reduce_armor, Ins.withArmor_armor]
        rw [if_pos hle, hp, if_pos rfl]
        simp [remove_insect, Ins.withArmor_isQueen, Ins.withArmor_isAnt,
          Ins.withArmor_id, hq, hb, hmem]
      · right
        refine ⟨hle, ?_⟩
        have h0 : c.insect.id ∉ c.place.bees.erase c.insect.id := by
          have := List.count_erase_self c.insect.id c.place.bees
          exact List.not_mem_of_count_eq_zero (by omega)
        simp [presentIn, Ins.withArmor_isAnt, Ins.withArmor_id, hb, h0]
    · refine ⟨⟨c.insect.withArmor (c.insect.armor - amount),
              { c.place with ant := c.insect.contained },
              false⟩, ?_, Ins.withArmor_armor _ _, ?_⟩
      · simp only [reduce_armor, Ins.withArmor_armor]
        rw [if_pos hle, hp, if_pos rfl]
        simp [remove_insect, Ins.withArmor_isQueen, Ins.withArmor_isAnt,
          Ins.withArmor_id, hq, ha, hslot]
      · right
        refine ⟨hle, ?_⟩
        cases hco : c.insect.contained with
        | none => simp [presentIn, Ins.withArmor_isAnt, ha, hco]
        | some x =>
          have hxid : x.id ≠ c.insect.id := hinner x hco
          simp [presentIn, Ins.withArmor_isAnt, Ins.withArmor_id, ha, hco, hxid]
  · refine ⟨⟨c.insect.withArmor (c.insect.armor - amount), c.place,
            c.hasPlace⟩, ?_, Ins.withArmor_armor _ _, ?_⟩
    · simp only [reduce_armor, Ins.withArmor_armor]
      rw [if_neg hle]
    · left
      refine ⟨by omega, ?_⟩
      rcases hcase with ⟨hb, hcnt⟩ | ⟨ha, hslot, _⟩
      · have hmem : c.insect.id ∈ c.place.bees := List.count_pos_iff.mp (by omega)
        simp [presentIn, Ins.withArmor_isAnt, Ins.withArmor_id, hb, hmem]
      · simp [presentIn, Ins.withArmor_isAnt, Ins.withArmor_id, ha, hslot]

/-- Witness for C2 (amended): a bee with armor 5 taking 2 damage. -/
theorem reduce_armor_two_outcomes_nonqueen_witness :
    ∃ c', reduce_armor ⟨Ins.mk 7 false false true false 5 0 false none,
            ⟨[7], none⟩, true⟩ 2 = .ok c' ∧
      c'.insect.armor =
        (Ins.mk 7 false false true false 5 0 false none : Ins).armor - 2 ∧
      ((0 < (Ins.mk 7 false false true false 5 0 false none : Ins).armor - 2 ∧
          presentIn c' = true) ∨
       ((Ins.mk 7 false false true false 5 0 false none : Ins).armor - 2 ≤ 0 ∧
          presentIn c' = false)) :=
  reduce_armor_two_outcomes_nonqueen _ 2 rfl rfl (Or.inl ⟨rfl, rfl⟩)

/-- C9: adding a watersafe actor to a Water place is exactly
`Place.add_insect` (armor untouched), while adding a fresh non-watersafe
actor (not already present, nesting nothing; an ant only into an empty
slot; not the queen, the only queen class being watersafe) leaves its
armor exactly 0 and the actor absent, with the place contents restored. -/
theorem water_add_insect_spec (p : PlaceRec) (i : Ins) :
    (i.watersafe = true →
      water_add_insect p i =
        (add_insect p i).map (fun p' => (⟨i, p', true⟩ : Config))) ∧
    (i.watersafe = false → i.isQueen = false → i.id ∉ p.bees →
      i.contained = none → (i.isAnt = true → p.ant = none) →
      water_add_insect p i = .ok ⟨i.withArmor 0, p, false⟩ ∧
        presentIn ⟨i.withArmor 0, p, false⟩ = false) := by
  constructor
  · intro hw
    unfold water_add_insect
    cases h : add_insect p i with
    | error e => simp [Except.map]
    | ok p' => simp [hw, Except.map]
  · intro hw hq hnb hfresh hant
    cases hi : i.isAnt with
    | true =>
      obtain ⟨bs, an⟩ := p
      have hpa : an = none := hant hi
      subst hpa
      constructor
      · simp [water_add_insect, add_insect, hi, hw, reduce_armor,
          remove_insect, Ins.withArmor_armor, Ins.withArmor_isQueen,
          Ins.withArmor_isAnt, Ins.withArmor_id, hq, hfresh, sub_self]
      · simp [presentIn, Ins.withArmor_isAnt, hi]
    | false =>
      have herase : (p.bees ++ [i.id]).erase i.id = p.bees := by
        rw [List.erase_append_right _ hnb]
        simp
      constructor
      · simp [water_add_insect, add_insect, hi, hw, reduce_armor,
          remove_insect, Ins.withArmor_armor, Ins.withArmor_isQueen,
          Ins.withArmor_isAnt, Ins.withArmor_id, hq, herase, sub_self]
      · simp [presentIn, Ins.withArmor_isAnt, Ins.withArmor_id, hi, hnb]

/-- Witness for C9: a watersafe bee into water behaves like a plain add;
a non-watersafe ant with armor 4 into water ends at armor 0, absent. -/
theorem water_add_insect_spec_witness :
    water_add_insect ⟨[], none⟩ (Ins.mk 2 false false true false 3 0 false none) =
      (add_insect ⟨[], none⟩ (Ins.mk 2 false false true false 3 0 false none)).map
        (fun p' => (⟨Ins.mk 2 false false true false 3 0 false none, p', true⟩ : Config)) ∧
    (water_add_insect ⟨[], none⟩ (Ins.mk 3 true false false false 4 0 false none) =
      .ok ⟨(Ins.mk 3 true false false false 4 0 false none).withArmor 0, ⟨[], none⟩, false⟩ ∧
     presentIn ⟨(Ins.mk 3 true false false false 4 0 false none).withArmor 0,
        ⟨[], none⟩, false⟩ = false) :=
  ⟨(water_add_insect_spec _ _).1 rfl,
   (water_add_insect_spec _ _).2 rfl rfl (by simp) rfl (fun _ => rfl)⟩

/-- C10: `reduce_armor` completes without error only when the actor has a
place reference or the resulting armor stays strictly positive; lethal
damage (`amount ≥ armor`) on an actor whose place reference is `None`
fails with the `AttributeError` of `None.remove_insect`. -/
theorem reduce_armor_needs_place (c : Config) (amount : Int) :
    (∀ c', reduce_armor c amount = .ok c' →
      c.hasPlace = true ∨ 0 < c.insect.armor - amount) ∧
    (c.insect.armor ≤ amount → c.hasPlace = false →
      reduce_armor c amount =
        .error "AttributeError: NoneType has no remove_insect") := by
  constructor
  · intro c' hok
    by_cases hle : c.insect.armor - amount ≤ 0
    · left
      by_cases hp : c.hasPlace = true
      · exact hp
      · exfalso
        have hfalse : c.hasPlace = false := by
          revert hp
          cases c.hasPlace <;> simp
        simp only [reduce_armor, Ins.withArmor_armor] at hok
        rw [if_pos hle, if_neg (by simp [hfalse])] at hok
        simp at hok
    · right
      omega
  · intro hlt hp
    simp only [reduce_armor, Ins.withArmor_armor]
    rw [if_pos (by omega), if_neg (by simp [hp])]

/-- Witness for C10: lethal damage on an unplaced insect errors, and a
successful non-lethal call satisfies the success condition. -/
theorem reduce_armor_needs_place_witness :
    ((⟨Ins.mk 1 false false false false 10 0 false none, ⟨[], none⟩,
        false⟩ : Config).hasPlace = true ∨
      0 < (Ins.mk 1 false false false false 10 0 false none : Ins).armor - 3) ∧
    reduce_armor ⟨Ins.mk 1 false false false false 1 0 false none, ⟨[], none⟩,
        false⟩ 1 = .error "AttributeError: NoneType has no remove_insect" :=
  ⟨(reduce_armor_needs_place _ 3).1
      ⟨Ins.mk 1 false false false false 7 0 false none, ⟨[], none⟩, false⟩ rfl,
   (reduce_armor_needs_place _ 1).2 (by decide) rfl⟩

/-- The kind of a status effect: `slow` is `make_slow`, `stun` is
`make_stun`. -/
inductive EffectKind where
  | slow
  | stun
deriving DecidableEq

/-- One `duration_effect` wrapper produced by `apply_effect`: the effect
constructor it closes over, its `duration`, and its mutable `count`. -/
structure DEffect where
  kind : EffectKind
  duration : Nat
  count : Nat
deriving DecidableEq

/-- Run the composed wrapper stack, outermost wrapper first, at colony
time `t`.  Returns whether the base `Bee._action` was reached (the bee
acted) and the updated wrapper states.  Mirrors `duration_effect`: while
`count < duration` the wrapper increments its count and interposes its
effect — `make_stun`'s `stunned_action` does nothing (the inner action is
never invoked, so inner counts are untouched), `make_slow`'s
`slowed_action` invokes the inner action only when `t % 2 == 0`; once
expired, the wrapper transparently calls the inner action. -/
def runOuter : List DEffect → Nat → Bool × List DEffect
  | [], _ => (true, [])
  | e :: rest, t =>
    if e.count < e.duration then
      match e.kind with
      | .stun => (false, { e with count := e.count + 1 } :: rest)
      | .slow =>
        if t % 2 = 0 then
          ((runOuter rest t).1, { e with count := e.count + 1 } :: (runOuter rest t).2)
        else (false, { e with count := e.count + 1 } :: rest)
    else ((runOuter rest t).1, e :: (runOuter rest t).2)

/-- `Bee.action`: the effects list is kept in registration order (as the
Python `self.effects` list); the composition loop wraps the base action so
that the LAST registered effect is the OUTERMOST wrapper, hence the
reversal. -/
def bee_action (es : List DEffect) (t : Nat) : Bool × List DEffect :=
  ((runOuter es.reverse t).1, (runOuter es.reverse t).2.reverse)

/-- `apply_effect(effect, bee, duration)`: appends a fresh wrapper
(`count = 0`) to the bee's effects list — stacking, never replacing. -/
def apply_effect (k : EffectKind) (es : List DEffect) (duration : Nat) :
    List DEffect :=
  es ++ [⟨k, duration, 0⟩]

/-- Run the bee's action on `n` consecutive colony ticks starting at time
`t`, recording on which ticks the base action ran. -/
def runTicks : List DEffect → Nat → Nat → List Bool
  | _, _, 0 => []
  | es, t, n + 1 =>
    (bee_action es t).1 :: runTicks (bee_action es t).2 (t + 1) n

/-- C3 counterexample: the claim says a slow-affected bee skips its action
on EVEN ticks (acting only on odd ticks); but `make_slow` runs the wrapped
action exactly when `colony.time % 2 == 0`, so at the even tick 0 a
slowed bee acts. -/
theorem slow_acts_on_even_tick_cex :
    (bee_action [⟨EffectKind.slow, 3, 0⟩] 0).1 = true ∧ 0 % 2 = 0 :=
  ⟨rfl, rfl⟩

/-- C3 (amended): while a slow wrapper is actively intercepting
(`count < duration`), the bee acts only on EVEN ticks (skipping odd
ticks): a lone slow wrapper lets the base action run exactly when
`t % 2 = 0`, and whatever the wrapper stack under it, an actively
intercepting outermost slow never lets the bee act on an odd tick; an
actively intercepting outermost stun never lets the bee act at all. -/
theorem slow_even_stun_never_acts (d c t : Nat) (es : List DEffect)
    (h : c < d) :
    (bee_action [⟨EffectKind.slow, d, c⟩] t).1 = decide (t % 2 = 0) ∧
    ((bee_action (es ++ [⟨EffectKind.slow, d, c⟩]) t).1 = true → t % 2 = 0) ∧
    (bee_action (es ++ [⟨EffectKind.stun, d, c⟩]) t).1 = false := by
  have hrev : ∀ k : EffectKind,
      (es ++ [(⟨k, d, c⟩ : DEffect)]).reverse = ⟨k, d, c⟩ :: es.reverse := by
    intro k
    simp
  refine ⟨?_, ?_, ?_⟩
  · by_cases ht : t % 2 = 0
    · simp [bee_action, runOuter, h, ht]
    · simp [bee_action, runOuter, h, ht]
  · intro hacts
    by_cases ht : t % 2 = 0
    · exact ht
    · exfalso
      rw [bee_action, hrev] at hacts
      simp [runOuter, h, ht] at hacts
  · rw [bee_action, hrev]
    simp [runOuter, h]

/-- Witness for C3 (amended): an active slow of duration 3 at ticks 2 and
3, an active stun at tick 2. -/
theorem slow_even_stun_never_acts_witness :
    ((bee_action [⟨EffectKind.slow, 3, 0⟩] 2).1 = decide (2 % 2 = 0) ∧
      ((bee_action ([] ++ [⟨EffectKind.slow, 3, 0⟩]) 2).1 = true → 2 % 2 = 0) ∧
      (bee_action ([] ++ [⟨EffectKind.stun, 3, 0⟩]) 2).1 = false) ∧
    ((bee_action [⟨EffectKind.slow, 3, 0⟩] 3).1 = decide (3 % 2 = 0) ∧
      ((bee_action ([] ++ [⟨EffectKind.slow, 3, 0⟩]) 3).1 = true → 3 % 2 = 0) ∧
      (bee_action ([] ++ [⟨EffectKind.stun, 3, 0⟩]) 3).1 = false) :=
  ⟨slow_even_stun_never_acts 3 0 2 [] (by decide),
   slow_even_stun_never_acts 3 0 3 [] (by decide)⟩

theorem runOuter_expired (es : List DEffect) (t : Nat)
    (h : ∀ e ∈ es, e.duration ≤ e.count) : runOuter es t = (true, es) := by
  induction es with
  | nil => rfl
  | cons e rest ih =>
    have he : ¬ e.count < e.duration := Nat.not_lt.mpr (h e (by simp))
    have hrest : ∀ x ∈ rest, x.duration ≤ x.count := fun x hx => h x (by simp [hx])
    simp [runOuter, he, ih hrest]

theorem runTicks_expired (es : List DEffect)
    (h : ∀ e ∈ es, e.duration ≤ e.count) (t n : Nat) :
    runTicks es t n = List.replicate n true := by
  induction n generalizing t with
  | zero => rfl
  | succ m ih =>
    have hrev : ∀ e ∈ es.reverse, e.duration ≤ e.count := by
      intro e he
      exact h e (List.mem_reverse.mp he)
    have hb : bee_action es t = (true, es) := by
      simp [bee_action, runOuter_expired es.reverse t hrev]
    simp [runTicks, hb, ih, List.replicate_succ]

/-- C4 counterexample: applying stun(duration 1) then slow(duration 3) to
a bee acting from even tick 0: the observed action pattern over 6 ticks is
skip, skip, act, act, act, act.  The bee does not "act every-other-tick
for up to 3 of its own subsequent acting ticks" after the stun skip: it
acts on four CONSECUTIVE ticks (2,3,4,5), because the slow wrapper is
OUTERMOST and its 3 counts deplete on ticks 0,1,2 — including ticks where
the stun (tick 0) already suppressed the action — so slow suppresses only
the single odd tick 1. -/
theorem stun_then_slow_trace_cex :
    runTicks (apply_effect .slow (apply_effect .stun [] 1) 3) 0 6 =
      [false, false, true, true, true, true] := rfl

/-- C4 (amended): applying stun(1) then slow(3) stacks two independent
wrappers (the stun wrapper is kept, the slow wrapper is appended and,
being registered last, is outermost).  Starting at an even tick, the bee
skips exactly 2 ticks — tick 0 to the stun (slow passes the even tick
through, stun intercepts) and tick 1 to the slow (odd tick) — and acts on
every subsequent tick: slow's 3 counts deplete on ticks 0,1,2 regardless
of the stun, so both wrappers are expired from tick 3 on. -/
theorem stun_then_slow_stacked_behavior (n : Nat) :
    apply_effect .slow (apply_effect .stun [] 1) 3 =
      [⟨.stun, 1, 0⟩, ⟨.slow, 3, 0⟩] ∧
    runTicks (apply_effect .slow (apply_effect .stun [] 1) 3) 0 (n + 2) =
      false :: false :: List.replicate n true := by
  refine ⟨rfl, ?_⟩
  cases n with
  | zero => rfl
  | succ m =>
    have h1 : runTicks (apply_effect .slow (apply_effect .stun [] 1) 3) 0
          (m + 1 + 2) =
        false :: false :: true ::
          runTicks [⟨.stun, 1, 1⟩, ⟨.slow, 3, 3⟩] 3 m := rfl
    rw [h1, runTicks_expired _ (by decide) 3 m]
    rfl

/-- `ThrowerAnt.nearest_bee`: walk outward from the thrower's own place
(hop distance 0) following `entrance` back-references; the walk stops at
the Hive.  The `chain` lists the bees of the places at hop distance
0,1,2,… up to (excluding) the Hive.  At each hop distance within
`[min_range, max_range]`, `random_or_none(place.bees)` returns an
arbitrary element of the bees list (or `None` when empty), and the first
non-`None` target is returned; the model returns the whole nonempty
candidate list the random choice is made from, covering every outcome of
the tie-break.  `none` models falling off the loop (returning `None`). -/
def nearest_bee_go (minr maxr : Nat) : List (List Nat) → Nat → Option (List Nat)
  | [], _ => none
  | bs :: rest, range =>
    if minr ≤ range ∧ range ≤ maxr ∧ bs ≠ [] then some bs
    else nearest_bee_go minr maxr rest (range + 1)

/-- `nearest_bee` starts at the thrower's own place with `range = 0`. -/
def nearest_bee (minr maxr : Nat) (chain : List (List Nat)) :
    Option (List Nat) :=
  nearest_bee_go minr maxr chain 0

/-- All bees of the chain living at a hop distance within
`[min_range, max_range]`, starting the distance count at `r`. -/
def inRangeBeesGo (minr maxr : Nat) : List (List Nat) → Nat → List Nat
  | [], _ => []
  | bs :: rest, range =>
    (if minr ≤ range ∧ range ≤ maxr then bs else []) ++
      inRangeBeesGo minr maxr rest (range + 1)

/-- All bees of the chain living at a hop distance within range of the
thrower (distances counted from its own place). -/
def inRangeBees (minr maxr : Nat) (chain : List (List Nat)) : List Nat :=
  inRangeBeesGo minr maxr chain 0

theorem nearest_bee_go_sound (minr maxr : Nat) (chain : List (List Nat))
    (r : Nat) (bs : List Nat) (h : nearest_bee_go minr maxr chain r = some bs) :
    ∃ i, chain[i]? = some bs ∧ minr ≤ r + i ∧ r + i ≤ maxr ∧ bs ≠ [] := by
  induction chain generalizing r with
  | nil => simp [nearest_bee_go] at h
  | cons hd tl ih =>
    by_cases hc : minr ≤ r ∧ r ≤ maxr ∧ hd ≠ []
    · rw [nearest_bee_go, if_pos hc] at h
      obtain rfl : hd = bs := by injection h
      exact ⟨0, by simp, by simpa using hc.1, by simpa using hc.2.1, hc.2.2⟩
    · rw [nearest_bee_go, if_neg hc] at h
      obtain ⟨i, hi, h1, h2, h3⟩ := ih (r + 1) h
      refine ⟨i + 1, by simpa using hi, by omega, by omega, h3⟩

theorem nearest_bee_go_unique (minr maxr : Nat) (chain : List (List Nat))
    (r : Nat) (b : Nat) (h : inRangeBeesGo minr maxr chain r = [b]) :
    nearest_bee_go minr maxr chain r = some [b] := by
  induction chain generalizing r with
  | nil => simp [inRangeBeesGo] at h
  | cons hd tl ih =>
    rw [inRangeBeesGo] at h
    by_cases hir : minr ≤ r ∧ r ≤ maxr
    · rw [if_pos hir] at h
      cases hhd : hd with
      | nil =>
        rw [hhd] at h
        simp only [List.nil_append] at h
        rw [nearest_bee_go, if_neg (by simp [hhd])]
        exact ih (r + 1) h
      | cons x xs =>
        rw [hhd] at h
        obtain ⟨rfl, hxs, _⟩ : x = b ∧ xs = [] ∧
            inRangeBeesGo minr maxr tl (r + 1) = [] := by
          simpa using h
        rw [nearest_bee_go,
          if_pos (⟨hir.1, hir.2, by simp⟩ :
            minr ≤ r ∧ r ≤ maxr ∧ x :: xs ≠ [])]
        rw [hxs]
    · rw [if_neg hir] at h
      simp only [List.nil_append] at h
      rw [nearest_bee_go, if_neg (by tauto)]
      exact ih (r + 1) h

/-- C5: any candidate list found by `nearest_bee` sits at a hop distance
`d` with `min_range ≤ d ≤ max_range`, so every possible outcome of the
random tie-break (any member of that list) is a bee at an in-range hop
distance — a bee outside the range is never the one damaged by
`throw_at`; and when exactly one bee of the whole chain is within range,
the candidate list is exactly that bee, so it is always the one selected
and damaged. -/
theorem nearest_bee_range_sound (minr maxr : Nat) (chain : List (List Nat)) :
    (∀ bs, nearest_bee minr maxr chain = some bs →
      ∃ d, chain[d]? = some bs ∧ minr ≤ d ∧ d ≤ maxr ∧ bs ≠ []) ∧
    (∀ b, inRangeBees minr maxr chain = [b] →
      nearest_bee minr maxr chain = some [b]) := by
  constructor
  · intro bs h
    obtain ⟨i, hi, h1, h2, h3⟩ := nearest_bee_go_sound minr maxr chain 0 bs h
    exact ⟨i, hi, by simpa using h1, by simpa using h2, h3⟩
  · intro b h
    exact nearest_bee_go_unique minr maxr chain 0 b h

/-- Witness for C5: a chain with bee 5 at distance 1 (in range [0,1]) and
bee 7 at distance 2 (out of range). -/
theorem nearest_bee_range_sound_witness :
    (∃ d, ([[], [5], [7]] : List (List Nat))[d]? = some [5] ∧
      0 ≤ d ∧ d ≤ 1 ∧ ([5] : List Nat) ≠ []) ∧
    nearest_bee 0 1 [[], [5], [7]] = some [5] :=
  ⟨(nearest_bee_range_sound 0 1 [[], [5], [7]]).1 [5] rfl,
   (nearest_bee_range_sound 0 1 [[], [5], [7]]).2 5 rfl⟩

/-- The two terminal reports of `AntColony.simulate`. -/
inductive Outcome where
  | won
  | lost
deriving DecidableEq

/-- The colony state read by `AntColony.simulate` in the empty-plan
scenario of the spec's end-to-end test: `time`/`food` mirror the counters,
`queenBees` is `len(self.queen.bees)`, `beeCount` is `len(self.bees)`
(all bees in all places including the Hive — empty assault plan means the
Hive starts with no bees and none ever appear), `harvesters` the number
of deployed `HarvesterAnt`s. -/
structure ColonyS where
  time : Nat
  food : Nat
  queenBees : Nat
  beeCount : Nat
  harvesters : Nat
deriving DecidableEq

/-- The deployment strategy of the claimed scenario: at tick 0, deploy one
Harvester (`food_cost = 2`) if the food suffices (`AntColony.deploy_ant`
refuses otherwise). -/
def claim_strategy (c : ColonyS) : ColonyS :=
  if c.time = 0 ∧ 2 ≤ c.food then
    { c with food := c.food - 2, harvesters := c.harvesters + 1 }
  else c

/-- The body of one `simulate` loop iteration in the empty-plan scenario:
the Hive strategy spawns nothing (empty assault plan), the deployment
strategy runs once, each deployed Harvester's action adds 1 food
(`colony.food += 1`), there are no bees to act, and the time counter
increments. -/
def tick_body (strat : ColonyS → ColonyS) (c : ColonyS) : ColonyS :=
  let c1 := strat c
  let c2 := { c1 with food := c1.food + c1.harvesters }
  { c2 with time := c2.time + 1 }

/-- `AntColony.simulate`: loop while no bee reached the queen and bees
remain; on exit report `lost` if a bee reached the queen, else `won`.
`fuel` bounds the number of iterations (`none` = fuel exhausted). -/
def simulate (strat : ColonyS → ColonyS) : Nat → ColonyS →
    Option (ColonyS × Outcome)
  | 0, _ => none
  | fuel + 1, c =>
    if c.queenBees = 0 ∧ 0 < c.beeCount then
      simulate strat fuel (tick_body strat c)
    else some (c, if 0 < c.queenBees then Outcome.lost else Outcome.won)

/-- C6 counterexample: with the empty invasion plan, `simulate` exits at
its very first guard check — tick 0, with the strategy never invoked, the
Harvester never deployed, and the food pool still at its initial 2.  The
claim's "after 5 ticks the resource pool equals 5" never happens (the
pool is 2, and not even the claimed post-deployment 0), because the
no-Invaders-remain check fires immediately at tick 0, producing `won`. -/
theorem simulate_empty_plan_cex :
    simulate claim_strategy 100 ⟨0, 2, 0, 0, 0⟩ =
      some (⟨0, 2, 0, 0, 0⟩, Outcome.won) ∧ (2 : Nat) ≠ 5 :=
  ⟨rfl, by decide⟩

/-- C6 (amended): with an empty invasion plan there are no bees at all, so
the `len(self.bees) > 0` half of the loop guard fails at the first check:
`simulate` performs zero iterations and reports `won` at tick 0 with the
whole colony state unchanged, for ANY deployment strategy and any initial
food — the strategy is never invoked, nothing is ever deployed, and the
food pool stays at its initial value (never reaching 5). -/
theorem simulate_empty_plan_won_tick0 (strat : ColonyS → ColonyS)
    (fuel f : Nat) (h : 1 ≤ fuel) :
    simulate strat fuel ⟨0, f, 0, 0, 0⟩ =
      some (⟨0, f, 0, 0, 0⟩, Outcome.won) := by
  cases fuel with
  | zero => omega
  | succ k => simp [simulate]

/-- Witness for C6 (amended): fuel 1, initial food 2. -/
theorem simulate_empty_plan_won_tick0_witness :
    simulate claim_strategy 1 ⟨0, 2, 0, 0, 0⟩ =
      some (⟨0, 2, 0, 0, 0⟩, Outcome.won) :=
  simulate_empty_plan_won_tick0 claim_strategy 1 2 (by decide)

/-- One entry of `AntColony.ant_types`: the class's `food_cost` constant
and the ant the constructor returns. -/
structure AntType where
  food_cost : Nat
  fresh : Ins

/-- The colony state read and written by `AntColony.deploy_ant`: the food
pool and the `places` mapping (an association list keyed by place name,
insertion order preserved). -/
structure ColonyD where
  food : Nat
  places : List (String × PlaceRec)

/-- Dictionary lookup `self.places[place_name]`. -/
def lookupPlace : List (String × PlaceRec) → String → Option PlaceRec
  | [], _ => none
  | (n, p) :: rest, name => if n = name then some p else lookupPlace rest name

/-- Replace the named place's contents (the in-place mutation of the
Python `Place` object held in the dict). -/
def updatePlace : List (String × PlaceRec) → String → PlaceRec →
    List (String × PlaceRec)
  | [], _, _ => []
  | (n, p) :: rest, name, p' =>
    if n = name then (n, p') :: rest else (n, p) :: updatePlace rest name p'

/-- `AntColony.deploy_ant`: if the food pool is smaller than the type's
cost, print a message and change nothing (non-fatal); otherwise construct
the ant, add it to the named place (a missing name raises `KeyError`, and
the add may raise the two-ants assertion) and deduct exactly the cost. -/
def deploy_ant (c : ColonyD) (place_name : String) (t : AntType) :
    Except String ColonyD :=
  if c.food < t.food_cost then .ok c
  else
    match lookupPlace c.places place_name with
    | none => .error "KeyError"
    | some p =>
      match add_insect p t.fresh with
      | .error e => .error e
      | .ok p' =>
        .ok { food := c.food - t.food_cost,
              places := updatePlace c.places place_name p' }

/-- C7: when the requested type's cost exceeds the food pool, `deploy_ant`
reports the failure non-fatally (a print) and returns with the colony
state entirely unchanged; when the food suffices and the named place
exists with an empty ant slot, the fresh ant is placed there and exactly
the cost is deducted. -/
theorem deploy_ant_resource_check (c : ColonyD) (pn : String) (t : AntType) :
    (c.food < t.food_cost → deploy_ant c pn t = .ok c) ∧
    (∀ p, t.food_cost ≤ c.food → lookupPlace c.places pn = some p →
      p.ant = none → t.fresh.isAnt = true →
      deploy_ant c pn t =
        .ok ⟨c.food - t.food_cost,
             updatePlace c.places pn { p with ant := some t.fresh }⟩) := by
  constructor
  · intro h
    simp [deploy_ant, h]
  · intro p hle hlook hslot hAnt
    rw [deploy_ant, if_neg (by omega), hlook]
    simp [add_insect, hAnt, hslot]

/-- Witness for C7: cost 2 against pool 1 is refused with no state
change; cost 2 against pool 5 places the ant and leaves pool 3. -/
theorem deploy_ant_resource_check_witness :
    deploy_ant ⟨1, [("tunnel", ⟨[], none⟩)]⟩ "tunnel"
        ⟨2, Ins.mk 9 true false false false 1 0 false none⟩ =
      .ok ⟨1, [("tunnel", ⟨[], none⟩)]⟩ ∧
    deploy_ant ⟨5, [("tunnel", ⟨[], none⟩)]⟩ "tunnel"
        ⟨2, Ins.mk 9 true false false false 1 0 false none⟩ =
      .ok ⟨5 - 2,
           updatePlace [("tunnel", ⟨[], none⟩)] "tunnel"
             ⟨[], some (Ins.mk 9 true false false false 1 0 false none)⟩⟩ :=
  ⟨(deploy_ant_resource_check ⟨1, [("tunnel", ⟨[], none⟩)]⟩ "tunnel"
      ⟨2, Ins.mk 9 true false false false 1 0 false none⟩).1 (by decide),
   (deploy_ant_resource_check ⟨5, [("tunnel", ⟨[], none⟩)]⟩ "tunnel"
      ⟨2, Ins.mk 9 true false false false 1 0 false none⟩).2
     ⟨[], none⟩ (by decide) rfl rfl rfl⟩

theorem Ins.withContained_isQueen (a : Ins) (o : Option Ins) :
    (a.withContained o).isQueen = a.isQueen := by cases a <;> rfl

theorem Ins.withContained_damage (a : Ins) (o : Option Ins) :
    (a.withContained o).damage = a.damage := by cases a <;> rfl

theorem Ins.withContained_damage_doubled (a : Ins) (o : Option Ins) :
    (a.withContained o).damage_doubled = a.damage_doubled := by
  cases a <;> rfl

theorem Ins.withContained_withContained (a : Ins) (o o' : Option Ins) :
    (a.withContained o).withContained o' = a.withContained o' := by
  cases a <;> rfl

/-- `Ant.double_damage`: multiply `self.damage` by 2 and set the
`damage_doubled` guard flag, unless the flag is already set. -/
def double_damage (a : Ins) : Ins :=
  match a with
  | .mk i an q w c ar d dd co =>
    if dd then .mk i an q w c ar d dd co
    else .mk i an q w c ar (d * 2) true co

theorem double_damage_flag (a : Ins) :
    (double_damage a).damage_doubled = true := by
  cases a with
  | mk i an q w c ar d dd co =>
    cases dd <;> simp [double_damage, Ins.damage_doubled]

theorem double_damage_of_flag (a : Ins) (h : a.damage_doubled = true) :
    double_damage a = a := by
  cases a with
  | mk i an q w c ar d dd co =>
    simp [Ins.damage_doubled] at h
    simp [double_damage, h]

theorem double_damage_isQueen (a : Ins) :
    (double_damage a).isQueen = a.isQueen := by
  cases a with
  | mk i an q w c ar d dd co => cases dd <;> simp [double_damage, Ins.isQueen]

theorem double_damage_contained (a : Ins) :
    (double_damage a).contained = a.contained := by
  cases a with
  | mk i an q w c ar d dd co =>
    cases dd <;> simp [double_damage, Ins.contained]

theorem double_damage_damage (a : Ins) :
    (double_damage a).damage =
      if a.damage_doubled then a.damage else a.damage * 2 := by
  cases a with
  | mk i an q w c ar d dd co =>
    cases dd <;> simp [double_damage, Ins.damage, Ins.damage_doubled]

theorem double_damage_idem (a : Ins) :
    double_damage (double_damage a) = double_damage a :=
  double_damage_of_flag _ (double_damage_flag a)

/-- `QueenAnt._double_place_damage` on one place's ant slot: skip when
empty or when the resident is the (true) queen; otherwise double the
resident's damage, then double its contained ant's damage unless there is
none or it is the queen. -/
def _double_place_damage (slot : Option Ins) : Option Ins :=
  match slot with
  | none => none
  | some a =>
    if a.isQueen then some a
    else
      match (double_damage a).contained with
      | none => some (double_damage a)
      | some ca =>
        if ca.isQueen then some (double_damage a)
        else some ((double_damage a).withContained (some (double_damage ca)))

/-- The net effect on the tunnel of the two walks in `QueenAnt.action`:
the first `while` loop visits the queen's own place and every place on
the `exit` side (to the deepest point), the second every place on the
`entrance` side (to the spawn side); together they visit each place of
the chain exactly once, and each visit touches only that place's ant
slot, so the combined effect is a map over the chain. -/
def queen_double_path (tunnel : List (Option Ins)) : List (Option Ins) :=
  tunnel.map _double_place_damage

theorem dpd_queen (a : Ins) (hq : a.isQueen = true) :
    _double_place_damage (some a) = some a := by
  rw [_double_place_damage.eq_def]
  simp [hq]

theorem dpd_nonqueen_nocontained (a : Ins) (hq : a.isQueen = false)
    (hco : a.contained = none) :
    _double_place_damage (some a) = some (double_damage a) := by
  rw [_double_place_damage.eq_def]
  simp [hq, double_damage_contained, hco]

theorem dpd_nonqueen_queen_contained (a ca : Ins) (hq : a.isQueen = false)
    (hco : a.contained = some ca) (hcq : ca.isQueen = true) :
    _double_place_damage (some a) = some (double_damage a) := by
  rw [_double_place_damage.eq_def]
  simp [hq, double_damage_contained, hco, hcq]

theorem dpd_nonqueen_contained (a ca : Ins) (hq : a.isQueen = false)
    (hco : a.contained = some ca) (hcq : ca.isQueen = false) :
    _double_place_damage (some a) =
      some ((double_damage a).withContained (some (double_damage ca))) := by
  rw [_double_place_damage.eq_def]
  simp [hq, double_damage_contained, hco, hcq]

theorem dpd_idem (s : Option Ins) :
    _double_place_damage (_double_place_damage s) = _double_place_damage s := by
  cases s with
  | none => rfl
  | some a =>
    by_cases hq : a.isQueen = true
    · rw [dpd_queen a hq, dpd_queen a hq]
    · have hq' : a.isQueen = false := by
        revert hq
        cases a.isQueen <;> simp
      have hdq : (double_damage a).isQueen = false := by
        rw [double_damage_isQueen]
        exact hq'
      cases hco : a.contained with
      | none =>
        rw [dpd_nonqueen_nocontained a hq' hco,
          dpd_nonqueen_nocontained _ hdq
            (by rw [double_damage_contained]; exact hco),
          double_damage_idem]
      | some ca =>
        by_cases hcq : ca.isQueen = true
        · rw [dpd_nonqueen_queen_contained a ca hq' hco hcq,
            dpd_nonqueen_queen_contained _ ca hdq
              (by rw [double_damage_contained]; exact hco) hcq,
            double_damage_idem]
        · have hcq' : ca.isQueen = false := by
            revert hcq
            cases ca.isQueen <;> simp
          rw [dpd_nonqueen_contained a ca hq' hco hcq']
          have hbq : ((double_damage a).withContained
              (some (double_damage ca))).isQueen = false := by
            rw [Ins.withContained_isQueen]
            exact hdq
          have hbco : ((double_damage a).withContained
              (some (double_damage ca))).contained = some (double_damage ca) :=
            Ins.withContained_contained _ _
          have hdcq : (double_damage ca).isQueen = false := by
            rw [double_damage_isQueen]
            exact hcq'
          rw [dpd_nonqueen_contained _ _ hbq hbco hdcq]
          have hflag : ((double_damage a).withContained
              (some (double_damage ca))).damage_doubled = true := by
            rw [Ins.withContained_damage_doubled]
            exact double_damage_flag a
          rw [double_damage_of_flag _ hflag, double_damage_idem,
            Ins.withContained_withContained]

theorem queen_double_path_idem (t : List (Option Ins)) :
    queen_double_path (queen_double_path t) = queen_double_path t := by
  induction t with
  | nil => rfl
  | cons s rest ih =>
    simp only [queen_double_path, List.map_cons] at ih ⊢
    rw [dpd_idem s, ih]

theorem queen_double_path_iterate (t : List (Option Ins)) :
    ∀ n, 1 ≤ n → queen_double_path^[n] t = queen_double_path t := by
  intro n
  induction n with
  | zero => omega
  | succ m ih =>
    intro _
    cases Nat.eq_zero_or_pos m with
    | inl h0 =>
      subst h0
      simp
    | inr hpos =>
      rw [Function.iterate_succ_apply', ih hpos, queen_double_path_idem]

theorem double_damage_le (a : Ins) :
    (double_damage a).damage ≤ 2 * a.damage := by
  rw [double_damage_damage]
  by_cases h : a.damage_doubled = true
  · simp [h]
    omega
  · have h' : a.damage_doubled = false := by
      revert h
      cases a.damage_doubled <;> simp
    simp [h']
    omega

theorem double_damage_fresh (a : Ins) (h : a.damage_doubled = false) :
    (double_damage a).damage = a.damage * 2 := by
  rw [double_damage_damage]
  simp [h]

/-- C8 counterexample: the true queen is herself a Defender on the path
through her Location, but `_double_place_damage` skips any ant whose
`is_queen()` is true, so her damage stat (here 1, with the guard flag
unset) is NOT doubled — "doubles the damage stat of every Defender along
the full path" fails at the queen's own slot. -/
theorem queen_not_doubled_cex :
    _double_place_damage
        (some (Ins.mk 0 true true true false 1 1 false none)) =
      some (Ins.mk 0 true true true false 1 1 false none) ∧
    (Ins.mk 0 true true true false 1 1 false none : Ins).damage_doubled =
      false :=
  ⟨rfl, rfl⟩

/-- C8 (amended): the queen's damage-doubling pass maps every place of
the tunnel; over any number `n ≥ 1` of queen actions it equals a single
pass (the per-Defender `damage_doubled` guard makes it idempotent); a
queen slot is left untouched; and every non-queen resident — and the ant
nested inside it, except a nested queen — is doubled at most once: its
damage never exceeds twice the original, and a not-yet-doubled one is
exactly doubled with the guard flag set. -/
theorem queen_double_damage_at_most_once (tunnel : List (Option Ins))
    (n : Nat) (hn : 1 ≤ n) :
    queen_double_path^[n] tunnel = queen_double_path tunnel ∧
    (∀ a : Ins, a.isQueen = true →
      _double_place_damage (some a) = some a) ∧
    (∀ a : Ins, a.isQueen = false →
      ∃ b, _double_place_damage (some a) = some b ∧
        b.damage ≤ 2 * a.damage ∧
        (a.damage_doubled = false →
          b.damage = a.damage * 2 ∧ b.damage_doubled = true) ∧
        (∀ ca, a.contained = some ca →
          ∃ cb, b.contained = some cb ∧
            cb.damage ≤ 2 * ca.damage ∧
            (ca.isQueen = true → cb = ca) ∧
            (ca.isQueen = false → ca.damage_doubled = false →
              cb.damage = ca.damage * 2 ∧ cb.damage_doubled = true))) := by
  refine ⟨queen_double_path_iterate tunnel n hn, fun a hq => dpd_queen a hq, ?_⟩
  intro a hq
  cases hco : a.contained with
  | none =>
    refine ⟨double_damage a, dpd_nonqueen_nocontained a hq hco,
      double_damage_le a, ?_, ?_⟩
    · intro hdd
      exact ⟨double_damage_fresh a hdd, double_damage_flag a⟩
    · intro ca hca
      cases hca
  | some ca =>
    by_cases hcq : ca.isQueen = true
    · refine ⟨double_damage a, dpd_nonqueen_queen_contained a ca hq hco hcq,
        double_damage_le a, ?_, ?_⟩
      · intro hdd
        exact ⟨double_damage_fresh a hdd, double_damage_flag a⟩
      · intro ca' hca'
        obtain rfl : ca = ca' := Option.some.inj hca'
        refine ⟨ca, by rw [double_damage_contained]; exact hco, by omega,
          fun _ => rfl, ?_⟩
        intro hfq
        rw [hcq] at hfq
        cases hfq
    · have hcq' : ca.isQueen = false := by
        revert hcq
        cases ca.isQueen <;> simp
      refine ⟨(double_damage a).withContained (some (double_damage ca)),
        dpd_nonqueen_contained a ca hq hco hcq', ?_, ?_, ?_⟩
      · rw [Ins.withContained_damage]
        exact double_damage_le a
      · intro hdd
        rw [Ins.withContained_damage, Ins.withContained_damage_doubled]
        exact ⟨double_damage_fresh a hdd, double_damage_flag a⟩
      · intro ca' hca'
        obtain rfl : ca = ca' := Option.some.inj hca'
        refine ⟨double_damage ca, Ins.withContained_contained _ _,
          double_damage_le ca, ?_, ?_⟩
        · intro hfq
          rw [hcq'] at hfq
          cases hfq
        · intro _ hfdd
          exact ⟨double_damage_fresh ca hfdd, double_damage_flag ca⟩

/-- Witness for C8 (amended): two queen actions over a one-place tunnel
equal one, and a fresh non-queen thrower with damage 1 is exactly
doubled. -/
theorem queen_double_damage_at_most_once_witness :
    queen_double_path^[2]
        [some (Ins.mk 5 true false false false 1 1 false none)] =
      queen_double_path
        [some (Ins.mk 5 true false false false 1 1 false none)] ∧
    (∃ b, _double_place_damage
          (some (Ins.mk 5 true false false false 1 1 false none)) = some b ∧
        b.damage ≤ 2 * (Ins.mk 5 true false false false 1 1 false none : Ins).damage ∧
        ((Ins.mk 5 true false false false 1 1 false none : Ins).damage_doubled = false →
          b.damage = (Ins.mk 5 true false false false 1 1 false none : Ins).damage * 2 ∧
          b.damage_doubled = true) ∧
        (∀ ca, (Ins.mk 5 true false false false 1 1 false none : Ins).contained = some ca →
          ∃ cb, b.contained = some cb ∧
            cb.damage ≤ 2 * ca.damage ∧
            (ca.isQueen = true → cb = ca) ∧
            (ca.isQueen = false → ca.damage_doubled = false →
              cb.damage = ca.damage * 2 ∧ cb.damage_doubled = true))) :=
  ⟨(queen_double_damage_at_most_once
      [some (Ins.mk 5 true false false false 1 1 false none)] 2 (by decide)).1,
   (queen_double_damage_at_most_once
      [some (Ins.mk 5 true false false false 1 1 false none)] 2 (by decide)).2.2
     (Ins.mk 5 true false false false 1 1 false none) rfl⟩
